import Mathlib

/-!
A shallow embedding of the passfs FUSE passthrough filesystem
(src/src/lib.rs) together with theorems settling the specification
claims.  The mutable `PassFs` struct becomes a pure record; each FUSE
handler becomes a function `PassFs → args → PassFs × Reply`.  Calls into
the real filesystem (`openat`/`std::fs`) are modelled by explicit
oracles passed to the handler: a `stat` oracle is a function from a
relative path to `Except Int FileStat` where the `Int` is the raw OS
error code (the source's `raw_os_error().unwrap_or(EIO)` is absorbed
into the oracle: an `io::Error` without a raw code enters the model as
`EIO`).  Machine integers are `Nat`/`Int` with explicit wrap-arounds at
the casts the source performs.
-/

namespace Passfs

/-! ## libc constants (Linux x86-64 values) -/

def ENOENT : Int := 2

def EIO : Int := 5

def EACCES : Int := 13

def EINVAL : Int := 22

def EROFS : Int := 30

def EBADFD : Int := 77

def EPERM : Int := 1

def S_IFMT : Nat := 0o170000

def S_IFSOCK : Nat := 0o140000

def S_IFLNK : Nat := 0o120000

def S_IFREG : Nat := 0o100000

def S_IFBLK : Nat := 0o060000

def S_IFDIR : Nat := 0o040000

def S_IFCHR : Nat := 0o020000

def S_IFIFO : Nat := 0o010000

def O_APPEND : Nat := 0o2000

def O_CREAT : Nat := 0o100

def O_TRUNC : Nat := 0o1000

/-- Mask used by the `open` handler: `libc::O_APPEND | libc::O_CREAT |
libc::O_TRUNC` (src/src/lib.rs line 216). -/
def open_mask : Nat := O_APPEND ||| O_CREAT ||| O_TRUNC

/-! ## Data model -/

/-- Relative path below the source root, as a list of components (the
`PathBuf` of the source; `push` is `++ [name]`). -/
def PathT := List String

instance : DecidableEq PathT := by
  unfold PathT
  infer_instance

/-- Fields of `libc::stat` the source reads.  `st_ino` is `u64`,
`st_mode` `u32`, `st_size` `i64` (kept as `Nat`: sizes of real files
are non-negative), `st_blocks`/`st_atime`/`st_mtime`/`st_ctime` `i64`,
`st_nlink`/`st_rdev` `u64`, `st_blksize` `i64` (kept as `Nat`). -/
structure FileStat where
  st_ino : Nat := 0
  st_mode : Nat := 0
  st_size : Nat := 0
  st_blocks : Int := 0
  st_atime : Int := 0
  st_mtime : Int := 0
  st_ctime : Int := 0
  st_nlink : Nat := 1
  st_uid : Nat := 0
  st_gid : Nat := 0
  st_rdev : Nat := 0
  st_blksize : Nat := 4096
deriving DecidableEq

/-- The `fuser::FileType` enum. -/
inductive FileType where
  | NamedPipe
  | CharDevice
  | BlockDevice
  | Directory
  | RegularFile
  | Symlink
  | Socket
deriving DecidableEq

/-- The `fuser::FileAttr` struct, with `SystemTime` fields reduced to
seconds since the epoch (`get_system_time` only ever produces whole
seconds). -/
structure FileAttr where
  ino : Nat
  size : Nat
  blocks : Nat
  atime : Nat
  mtime : Nat
  ctime : Nat
  crtime : Nat
  kind : FileType
  perm : Nat
  nlink : Nat
  uid : Nat
  gid : Nat
  rdev : Nat
  blksize : Nat
  flags : Nat
deriving DecidableEq

/-- Embedding of the nested `get_system_time` of `stat_to_fileattr`
(src/src/lib.rs lines 372-376): the `i64` timestamp is cast to `u64`
(two's-complement wrap), `UNIX_EPOCH.checked_add` succeeds exactly when
the resulting seconds fit a 64-bit `tv_sec` (`u < 2^63`), otherwise the
result is clamped to the epoch. -/
def get_system_time (t : Int) : Nat :=
  let u := (t % (2 : Int) ^ 64).toNat
  if u < 2 ^ 63 then u else 0

/-- Embedding of `stat_to_fileattr` (src/src/lib.rs lines 357-396).
The `match stat.st_mode & libc::S_IFMT` becomes a chain of equality
tests; the fall-through arm yields `RegularFile`.  Note that the source
fills the `size` field from `stat.st_ino` (line 380), not from
`stat.st_size`; this embedding reproduces that faithfully. -/
def stat_to_fileattr (st : FileStat) : FileAttr :=
  let m := st.st_mode &&& S_IFMT
  let kind :=
    if m = S_IFSOCK then FileType.Socket
    else if m = S_IFLNK then FileType.Symlink
    else if m = S_IFREG then FileType.RegularFile
    else if m = S_IFBLK then FileType.BlockDevice
    else if m = S_IFDIR then FileType.Directory
    else if m = S_IFCHR then FileType.CharDevice
    else if m = S_IFIFO then FileType.NamedPipe
    else FileType.RegularFile
  { ino := st.st_ino
    size := st.st_ino
    blocks := (st.st_blocks % (2 : Int) ^ 64).toNat
    atime := get_system_time st.st_atime
    mtime := get_system_time st.st_mtime
    ctime := get_system_time st.st_ctime
    crtime := 0
    kind := kind
    perm := st.st_mode &&& 0o777
    nlink := st.st_nlink % 2 ^ 32
    uid := st.st_uid
    gid := st.st_gid
    rdev := st.st_rdev % 2 ^ 32
    blksize := st.st_blksize % 2 ^ 32
    flags := 0 }

/-- The `openat::SimpleType` enum, as exposed by a directory entry. -/
inductive SimpleType where
  | Symlink
  | Dir
  | File
  | Other
deriving DecidableEq

/-- A directory entry as yielded by `openat::DirIter`: a name plus the
optional `simple_type` of the dirent. -/
structure DirEntry where
  name : String
  simple_type : Option SimpleType

/-- The kind translation the `readdir` handler applies to a directory
entry (src/src/lib.rs lines 165-175): only the dirent's `simple_type`
is consulted; `Other` and `None` both fall through to `CharDevice`. -/
def simple_kind : Option SimpleType → FileType
  | some SimpleType.Symlink => FileType.Symlink
  | some SimpleType.Dir => FileType.Directory
  | some SimpleType.File => FileType.RegularFile
  | some SimpleType.Other => FileType.CharDevice
  | none => FileType.CharDevice

/-- Model of one `(Dir, DirIter)` pair stored in `open_dirs`: the
remaining (not yet consumed) iterator items, each either an entry or an
iteration error, plus the directory-scoped stat oracle standing for
`dir.metadata(file_name)`. -/
structure DirRes where
  entries : List (Except Int DirEntry)
  entryStat : String → Except Int FileStat

/-! ## Association lists standing for the source's BTreeMaps -/

def alGet {α : Type} (k : Nat) (l : List (Nat × α)) : Option α :=
  (l.find? (fun p => p.1 == k)).map (fun p => p.2)

def alRemove {α : Type} (k : Nat) (l : List (Nat × α)) : List (Nat × α) :=
  l.filter (fun p => p.1 != k)

def alInsert {α : Type} (k : Nat) (v : α) (l : List (Nat × α)) : List (Nat × α) :=
  (k, v) :: alRemove k l

def alKeys {α : Type} (l : List (Nat × α)) : List Nat := l.map Prod.fst

/-! ## The filesystem state -/

/-- The `PassFs` struct (src/src/lib.rs lines 36-42).  The `root: Dir`
capability carries no model state (its behavior lives in the oracles);
the `BTreeMap`s become association lists and the `BTreeSet` of in-use
file handles becomes a strictly sorted list, matching the set's sorted
iteration order. -/
structure PassFs where
  open_dirs : List (Nat × DirRes)
  open_files : List (Nat × List Nat)
  inuse_fhs : List Nat
  inode_map : List (Nat × PathT)

/-- State built by `PassFs::new` (src/src/lib.rs lines 44-57): all
containers empty except `inode_map`, which maps inode 1 to
`PathBuf::from(".")`. -/
def initState : PassFs :=
  { open_dirs := []
    open_files := []
    inuse_fhs := []
    inode_map := [(1, (["."] : PathT))] }

/-! ## Handle allocation -/

/-- The scan inside `get_fh` (src/src/lib.rs lines 60-68):
`inuse_fhs.iter().enumerate().find(|&(i, fd)| i != fd).map(|(i, _)| i)
.unwrap_or(len)`. -/
def getFhValue (l : List Nat) : Nat :=
  match l.enum.find? (fun p => p.1 != p.2) with
  | some p => p.1
  | none => l.length

/-- `BTreeSet::insert`: a no-op when the element is present, otherwise
ordered insertion. -/
def fhInsert (x : Nat) (l : List Nat) : List Nat :=
  if x ∈ l then l else List.orderedInsert (· ≤ ·) x l

/-- Embedding of `PassFs::get_fh` (src/src/lib.rs lines 59-71): returns
the allocated handle and the updated in-use set. -/
def get_fh (l : List Nat) : Nat × List Nat :=
  (getFhValue l, fhInsert (getFhValue l) l)

/-! ## Replies -/

/-- One reply sent by a handler, collapsing fuser's per-operation reply
types into a sum.  `dirEntries` carries the buffered `(ino, kind,
name)` triples of a `ReplyDirectory`; `data` carries the bytes of a
`ReplyData`. -/
inductive Reply where
  | error (e : Int)
  | attr (a : FileAttr)
  | entry (a : FileAttr)
  | opened (fh : Nat)
  | dirEntries (es : List (Nat × FileType × String))
  | data (bytes : List Nat)
  | ok
deriving DecidableEq

/-! ## Handlers -/

/-- Embedding of `getattr` (src/src/lib.rs lines 75-90): resolve the
inode, stat the path; on success reply with translated attributes; on
any stat error reply with the mapped code and remove the inode from the
registry (the source removes unconditionally in the `Err` arm). -/
def getattr (s : PassFs) (ino : Nat) (fs : PathT → Except Int FileStat) :
    PassFs × Reply :=
  match alGet ino s.inode_map with
  | none => (s, Reply.error ENOENT)
  | some path =>
    match fs path with
    | Except.ok st => (s, Reply.attr (stat_to_fileattr st))
    | Except.error e =>
      ({ s with inode_map := alRemove ino s.inode_map }, Reply.error e)

/-- Embedding of `lookup` (src/src/lib.rs lines 92-112): parent inode 1
is special-cased to the empty path without consulting the registry;
other parents resolve through the registry (ENOENT when absent).  The
composed path is statted; on success the attribute's inode (the real
`st_ino`) is recorded for that path and the entry is replied. -/
def lookup (s : PassFs) (parent : Nat) (name : String)
    (fs : PathT → Except Int FileStat) : PassFs × Reply :=
  match (if parent = 1 then some ([] : PathT) else alGet parent s.inode_map) with
  | none => (s, Reply.error ENOENT)
  | some ppath =>
    let path : PathT := ppath ++ [name]
    match fs path with
    | Except.ok st =>
      let fa := stat_to_fileattr st
      ({ s with inode_map := alInsert fa.ino path s.inode_map }, Reply.entry fa)
    | Except.error e => (s, Reply.error e)

/-- Outcomes of the real-filesystem calls `opendir` performs:
`root.sub_dir(path)` (success carries no model data), `dir.list_dir(".")`
(success carries the iterator items), and the directory-scoped
`dir.metadata(name)` oracle captured in the stored resource. -/
structure OpendirFx where
  subDir : Except Int Unit
  listDir : Except Int (List (Except Int DirEntry))
  entryStat : String → Except Int FileStat

/-- Embedding of `opendir` (src/src/lib.rs lines 114-139): resolve the
inode, open the sub-directory (error replied without pruning), list it;
on success allocate a handle and store the resource; a listing error
prunes the inode only when it is ENOENT. -/
def opendir (s : PassFs) (ino : Nat) (fx : OpendirFx) : PassFs × Reply :=
  match alGet ino s.inode_map with
  | none => (s, Reply.error ENOENT)
  | some _ =>
    match fx.subDir with
    | Except.error e => (s, Reply.error e)
    | Except.ok _ =>
      match fx.listDir with
      | Except.ok entries =>
        let r := get_fh s.inuse_fhs
        ({ s with inuse_fhs := r.2,
                  open_dirs := alInsert r.1 ⟨entries, fx.entryStat⟩ s.open_dirs },
         Reply.opened r.1)
      | Except.error e =>
        if e = ENOENT then
          ({ s with inode_map := alRemove ino s.inode_map }, Reply.error e)
        else (s, Reply.error e)

/-- The `for entry in diriter` loop of `readdir` (src/src/lib.rs lines
161-199).  Arguments: the directory-scoped stat oracle, the reply
buffer capacity in entries (abstracting fuser's size-based `add`
returning `true` when the entry does not fit), the remaining iterator
items and the buffer so far.  Returns the items left in the iterator
(consumed items are gone even on the error and buffer-full paths, since
the source iterates a `get_mut` borrow) and either the buffered entries
or the error that aborted iteration. -/
def readdirLoop (estat : String → Except Int FileStat) (cap : Nat) :
    List (Except Int DirEntry) → List (Nat × FileType × String) →
    List (Except Int DirEntry) × Except Int (List (Nat × FileType × String))
  | [], buf => ([], Except.ok buf)
  | Except.error e :: rest, _ => (rest, Except.error e)
  | Except.ok ent :: rest, buf =>
    match estat ent.name with
    | Except.error e => (rest, Except.error e)
    | Except.ok st =>
      if buf.length < cap then
        readdirLoop estat cap rest
          (buf ++ [(st.st_ino, simple_kind ent.simple_type, ent.name)])
      else (rest, Except.ok buf)

/-- Embedding of `readdir` (src/src/lib.rs lines 141-200): negative
offsets are EINVAL; an unknown handle is EBADFD; otherwise the iterator
is drained through `readdirLoop` and the consumed iterator state is
written back. -/
def readdir (s : PassFs) (fh : Nat) (offset : Int) (cap : Nat) :
    PassFs × Reply :=
  if offset < 0 then (s, Reply.error EINVAL)
  else
    match alGet fh s.open_dirs with
    | none => (s, Reply.error EBADFD)
    | some dres =>
      let r := readdirLoop dres.entryStat cap dres.entries []
      let s' := { s with open_dirs := alInsert fh ⟨r.1, dres.entryStat⟩ s.open_dirs }
      match r.2 with
      | Except.ok buf => (s', Reply.dirEntries buf)
      | Except.error e => (s', Reply.error e)

/-- Embedding of `releasedir` (src/src/lib.rs lines 202-213): removal
from both structures is unconditional; absences are only logged and the
reply is always ok. -/
def releasedir (s : PassFs) (fh : Nat) : PassFs × Reply :=
  ({ s with open_dirs := alRemove fh s.open_dirs,
            inuse_fhs := s.inuse_fhs.erase fh }, Reply.ok)

/-- Embedding of the `open` handler (src/src/lib.rs lines 215-242),
named `open_op` because `open` is a Lean keyword.  Flags are the
non-negative `i32` FUSE open flags viewed as a `Nat` bit mask.  The
real `root.open_file(path)` (an `openat` read-only open that never sees
the access-mode flags) is the `fx` oracle, yielding the file's bytes on
success. -/
def open_op (s : PassFs) (ino : Nat) (flags : Nat)
    (fx : Except Int (List Nat)) : PassFs × Reply :=
  if flags &&& open_mask ≠ 0 then (s, Reply.error EROFS)
  else
    match alGet ino s.inode_map with
    | none => (s, Reply.error ENOENT)
    | some _ =>
      match fx with
      | Except.ok content =>
        let r := get_fh s.inuse_fhs
        ({ s with inuse_fhs := r.2,
                  open_files := alInsert r.1 content s.open_files },
         Reply.opened r.1)
      | Except.error e =>
        if e = ENOENT then
          ({ s with inode_map := alRemove ino s.inode_map }, Reply.error e)
        else (s, Reply.error e)

/-- One OS-level `file.read(&mut buffer[pos..])` on a regular file
whose bytes are `content`, with the file cursor at `p`: returns up to
`n` bytes from position `p` (the kernel returns `min(n, remaining)` for
an ordinary file; a zero-length result signals end-of-file). -/
def osRead (content : List Nat) (p n : Nat) : List Nat :=
  (content.drop p).take n

/-- The `while pos < buffer.len()` loop of `read` (src/src/lib.rs lines
272-279), accumulating the bytes written into `buffer[..pos]`.  `size`
is the buffer length, `off` the seek offset, `pos` the buffer position.
The fuel argument only serves termination; `read_op` supplies enough
for the loop to run to its break condition. -/
def readLoopAux (content : List Nat) (size off : Nat) :
    Nat → Nat → List Nat → List Nat
  | 0, _, acc => acc
  | fuel + 1, pos, acc =>
    if pos < size then
      let chunk := osRead content (off + pos) (size - pos)
      if chunk.length = 0 then acc
      else readLoopAux content size off fuel (pos + chunk.length) (acc ++ chunk)
    else acc

/-- Embedding of `read` (src/src/lib.rs lines 244-281), named `read_op`
to keep the handler distinct from `List` namespace clutter: negative
offsets are EINVAL, unknown handles EBADFD; otherwise seek to `offset`
(infallible on a regular file at a non-negative position) and run the
read loop over the open file's bytes. -/
def read_op (s : PassFs) (fh : Nat) (offset : Int) (size : Nat) :
    PassFs × Reply :=
  if offset < 0 then (s, Reply.error EINVAL)
  else
    match alGet fh s.open_files with
    | none => (s, Reply.error EBADFD)
    | some content =>
      (s, Reply.data (readLoopAux content size offset.toNat (size + 1) 0 []))

/-- Embedding of `release` (src/src/lib.rs lines 283-303), named
`release_op` for symmetry with `read_op`: unconditional removal from
`open_files` and the in-use set, reply always ok. -/
def release_op (s : PassFs) (fh : Nat) : PassFs × Reply :=
  ({ s with open_files := alRemove fh s.open_files,
            inuse_fhs := s.inuse_fhs.erase fh }, Reply.ok)

/-- Embedding of `create` (src/src/lib.rs lines 305-316): every
argument is ignored and the reply is EROFS. -/
def create (s : PassFs) : PassFs × Reply := (s, Reply.error EROFS)

/-- Embedding of `setattr` (src/src/lib.rs lines 318-337): every
argument is ignored and the reply is EROFS. -/
def setattr (s : PassFs) : PassFs × Reply := (s, Reply.error EROFS)

/-- Embedding of `setxattr` (src/src/lib.rs lines 339-350): every
argument is ignored and the reply is EROFS. -/
def setxattr (s : PassFs) : PassFs × Reply := (s, Reply.error EROFS)

/-- Embedding of `statfs` (src/src/lib.rs lines 352-354): the reply is
always EPERM. -/
def statfs (s : PassFs) : PassFs × Reply := (s, Reply.error EPERM)

/-! ## Operation sequences -/

/-- One protocol request together with the responses of the real
filesystem during its handling (the oracles travel with the request, so
a list of `Op`s determines a whole session). -/
inductive Op where
  | getattr (ino : Nat) (fs : PathT → Except Int FileStat)
  | lookup (parent : Nat) (name : String) (fs : PathT → Except Int FileStat)
  | opendir (ino : Nat) (fx : OpendirFx)
  | readdir (fh : Nat) (offset : Int) (cap : Nat)
  | releasedir (fh : Nat)
  | openf (ino : Nat) (flags : Nat) (fx : Except Int (List Nat))
  | read (fh : Nat) (offset : Int) (size : Nat)
  | release (fh : Nat)
  | create
  | setattr
  | setxattr
  | statfs

/-- Dispatch one request against the state. -/
def runOp (s : PassFs) : Op → PassFs × Reply
  | Op.getattr ino fs => getattr s ino fs
  | Op.lookup parent name fs => lookup s parent name fs
  | Op.opendir ino fx => opendir s ino fx
  | Op.readdir fh offset cap => readdir s fh offset cap
  | Op.releasedir fh => releasedir s fh
  | Op.openf ino flags fx => open_op s ino flags fx
  | Op.read fh offset size => read_op s fh offset size
  | Op.release fh => release_op s fh
  | Op.create => create s
  | Op.setattr => setattr s
  | Op.setxattr => setxattr s
  | Op.statfs => statfs s

/-- Run a request sequence from a state, keeping only the final state. -/
def runOps (s : PassFs) (ops : List Op) : PassFs :=
  ops.foldl (fun t op => (runOp t op).1) s

/-! ## The handle allocator returns the minimal excluded value -/

/-- Reference scan: walk the list with a counter, stopping at the first
element that differs from its position. -/
def mexAux : Nat → List Nat → Nat
  | i, [] => i
  | i, x :: xs => if x = i then mexAux (i + 1) xs else i

/-- The enumerate-and-find scan of `get_fh`, generalized to an
arbitrary starting index. -/
def gapScan (i : Nat) (l : List Nat) : Nat :=
  match (l.enumFrom i).find? (fun p => p.1 != p.2) with
  | some p => p.1
  | none => i + l.length

theorem gapScan_eq_mexAux (l : List Nat) : ∀ i : Nat, gapScan i l = mexAux i l := by
  induction l with
  | nil => intro i; simp [gapScan, mexAux]
  | cons x xs ih =>
    intro i
    by_cases hxi : x = i
    · subst hxi
      have h := ih (x + 1)
      unfold gapScan at h ⊢
      simp only [List.enumFrom, List.find?, bne_self_eq_false] at h ⊢
      rw [mexAux, if_pos rfl, ← h]
      cases (xs.enumFrom (x + 1)).find? (fun p => p.1 != p.2) with
      | none => simp [List.length_cons]; omega
      | some p => rfl
    · unfold gapScan
      have hb : ((i, x).1 != (i, x).2) = true := by
        simp [bne_iff_ne]
        omega
      simp only [List.enumFrom, List.find?, hb]
      rw [mexAux, if_neg hxi]

theorem getFhValue_eq_mexAux (l : List Nat) : getFhValue l = mexAux 0 l := by
  have h := gapScan_eq_mexAux l 0
  unfold gapScan at h
  unfold getFhValue
  rw [show l.enum = l.enumFrom 0 from rfl]
  rw [← h]
  cases (l.enumFrom 0).find? (fun p => p.1 != p.2) with
  | none => simp
  | some p => rfl

theorem mexAux_ge (l : List Nat) : ∀ i : Nat, i ≤ mexAux i l := by
  induction l with
  | nil => intro i; simp [mexAux]
  | cons x xs ih =>
    intro i
    rw [mexAux]
    split
    · exact Nat.le_trans (Nat.le_succ i) (ih (i + 1))
    · exact Nat.le_refl i

theorem mexAux_spec (l : List Nat) : ∀ i : Nat, List.Sorted (· < ·) l →
    (∀ y ∈ l, i ≤ y) →
    mexAux i l ∉ l ∧ ∀ m, i ≤ m → m < mexAux i l → m ∈ l := by
  induction l with
  | nil =>
    intro i _ _
    refine ⟨List.not_mem_nil _, fun m him hm => ?_⟩
    rw [mexAux] at hm
    omega
  | cons x xs ih =>
    intro i hs hlb
    have hx : ∀ y ∈ xs, x < y := (List.sorted_cons.mp hs).1
    have hxs : List.Sorted (· < ·) xs := (List.sorted_cons.mp hs).2
    by_cases hxi : x = i
    · subst hxi
      rw [mexAux, if_pos rfl]
      have hlb' : ∀ y ∈ xs, x + 1 ≤ y := fun y hy => hx y hy
      obtain ⟨h1, h2⟩ := ih (x + 1) hxs hlb'
      constructor
      · intro hmem
        rcases List.mem_cons.mp hmem with h | h
        · have := mexAux_ge xs (x + 1)
          omega
        · exact h1 h
      · intro m him hm
        by_cases hmx : m = x
        · exact hmx ▸ List.mem_cons_self x xs
        · exact List.mem_cons_of_mem x (h2 m (by omega) hm)
    · rw [mexAux, if_neg hxi]
      have hix : i < x := Nat.lt_of_le_of_ne (hlb x (List.mem_cons_self x xs)) (fun h => hxi h.symm)
      constructor
      · intro hmem
        rcases List.mem_cons.mp hmem with h | h
        · omega
        · have := hx i h
          omega
      · intro m him hm
        omega

/-- On a strictly sorted in-use set, `getFhValue` is the least value not
in the set. -/
theorem getFhValue_spec (l : List Nat) (hs : List.Sorted (· < ·) l) :
    getFhValue l ∉ l ∧ ∀ m, m < getFhValue l → m ∈ l := by
  rw [getFhValue_eq_mexAux]
  obtain ⟨h1, h2⟩ := mexAux_spec l 0 hs (fun y _ => Nat.zero_le y)
  exact ⟨h1, fun m hm => h2 m (Nat.zero_le m) hm⟩

theorem mem_fhInsert_self (x : Nat) (l : List Nat) : x ∈ fhInsert x l := by
  unfold fhInsert
  split
  · assumption
  · exact (List.mem_orderedInsert _).mpr (Or.inl rfl)

theorem mem_fhInsert_of_mem (x y : Nat) (l : List Nat) (h : y ∈ l) :
    y ∈ fhInsert x l := by
  unfold fhInsert
  split
  · exact h
  · exact (List.mem_orderedInsert _).mpr (Or.inr h)

theorem mem_of_mem_fhInsert {x y : Nat} {l : List Nat} (h : y ∈ fhInsert x l) :
    y = x ∨ y ∈ l := by
  unfold fhInsert at h
  split at h
  · exact Or.inr h
  · exact (List.mem_orderedInsert _).mp h

theorem sorted_orderedInsert_of_not_mem (x : Nat) (l : List Nat)
    (hs : List.Sorted (· < ·) l) (hx : x ∉ l) :
    List.Sorted (· < ·) (List.orderedInsert (· ≤ ·) x l) := by
  induction l with
  | nil => simp [List.orderedInsert]
  | cons b l ih =>
    have hb : ∀ y ∈ l, b < y := (List.sorted_cons.mp hs).1
    have hl : List.Sorted (· < ·) l := (List.sorted_cons.mp hs).2
    have hxb : x ≠ b := fun h => hx (h ▸ List.mem_cons_self b l)
    have hxl : x ∉ l := fun h => hx (List.mem_cons_of_mem b h)
    rw [List.orderedInsert]
    split
    · rename_i hle
      refine List.sorted_cons.mpr ⟨?_, hs⟩
      intro y hy
      rcases List.mem_cons.mp hy with h | h
      · omega
      · have := hb y h
        omega
    · rename_i hgt
      refine List.sorted_cons.mpr ⟨?_, ih hl hxl⟩
      intro y hy
      rcases (List.mem_orderedInsert _).mp hy with h | h
      · omega
      · exact hb y h

theorem sorted_fhInsert (x : Nat) (l : List Nat)
    (hs : List.Sorted (· < ·) l) : List.Sorted (· < ·) (fhInsert x l) := by
  unfold fhInsert
  split
  · exact hs
  · exact sorted_orderedInsert_of_not_mem x l hs (by assumption)

theorem sorted_erase (x : Nat) (l : List Nat)
    (hs : List.Sorted (· < ·) l) : List.Sorted (· < ·) (l.erase x) :=
  List.Pairwise.sublist (l.erase_sublist x) hs

/-! ## Strict sortedness of the in-use set is an invariant -/

theorem read_op_state (s : PassFs) (fh : Nat) (offset : Int) (size : Nat) :
    (read_op s fh offset size).1 = s := by
  unfold read_op
  repeat' split
  all_goals rfl

/-- An opendir effect that succeeds with an empty directory listing. -/
def fxOkEmpty : OpendirFx :=
  { subDir := Except.ok ()
    listDir := Except.ok []
    entryStat := fun _ => Except.error ENOENT }

/-! ## Association-list key lemmas -/

theorem mem_alKeys_alRemove {α : Type} (k k' : Nat) (l : List (Nat × α)) :
    k' ∈ alKeys (alRemove k l) ↔ k' ∈ alKeys l ∧ k' ≠ k := by
  unfold alKeys alRemove
  constructor
  · intro h
    obtain ⟨p, hp, hpk⟩ := List.mem_map.mp h
    obtain ⟨hpl, hf⟩ := List.mem_filter.mp hp
    subst hpk
    exact ⟨List.mem_map.mpr ⟨p, hpl, rfl⟩, by simpa [bne_iff_ne] using hf⟩
  · rintro ⟨h, hne⟩
    obtain ⟨p, hpl, hpk⟩ := List.mem_map.mp h
    subst hpk
    exact List.mem_map.mpr ⟨p, List.mem_filter.mpr ⟨hpl, by simpa [bne_iff_ne] using hne⟩, rfl⟩

theorem mem_alKeys_alInsert {α : Type} (k k' : Nat) (v : α) (l : List (Nat × α)) :
    k' ∈ alKeys (alInsert k v l) ↔ k' = k ∨ k' ∈ alKeys l := by
  show k' ∈ alKeys ((k, v) :: alRemove k l) ↔ _
  have hcons : alKeys ((k, v) :: alRemove k l) = k :: alKeys (alRemove k l) := rfl
  rw [hcons, List.mem_cons]
  constructor
  · rintro (rfl | h)
    · exact Or.inl rfl
    · exact Or.inr ((mem_alKeys_alRemove k k' l).mp h).1
  · rintro (rfl | h)
    · exact Or.inl rfl
    · by_cases hkk : k' = k
      · exact Or.inl hkk
      · exact Or.inr ((mem_alKeys_alRemove k k' l).mpr ⟨h, hkk⟩)

theorem keys_alRemove_sublist {α : Type} (k : Nat) (l : List (Nat × α)) :
    List.Sublist (alKeys (alRemove k l)) (alKeys l) :=
  List.Sublist.map Prod.fst (List.filter_sublist l)

theorem nodup_keys_alRemove {α : Type} (k : Nat) (l : List (Nat × α))
    (h : (alKeys l).Nodup) : (alKeys (alRemove k l)).Nodup :=
  h.sublist (keys_alRemove_sublist k l)

theorem nodup_keys_alInsert {α : Type} (k : Nat) (v : α) (l : List (Nat × α))
    (h : (alKeys l).Nodup) : (alKeys (alInsert k v l)).Nodup := by
  show (k :: alKeys (alRemove k l)).Nodup
  refine List.nodup_cons.mpr ⟨?_, nodup_keys_alRemove k l h⟩
  intro hmem
  exact ((mem_alKeys_alRemove k k l).mp hmem).2 rfl

theorem alGet_some_mem_keys {α : Type} {k : Nat} {v : α} {l : List (Nat × α)}
    (h : alGet k l = some v) : k ∈ alKeys l := by
  unfold alGet at h
  cases hf : l.find? (fun p => p.1 == k) with
  | none => rw [hf] at h; cases h
  | some q =>
    have hp := List.find?_some hf
    have hpl : q ∈ l := List.mem_of_find?_eq_some hf
    have hpk : q.1 = k := by simpa using hp
    exact hpk ▸ List.mem_map.mpr ⟨q, hpl, rfl⟩

/-! ## Handle-uniqueness invariant (C6) -/

/-- Every live handle is in the in-use set, the in-use set is strictly
sorted, each registry's handles are pairwise distinct, and the two
registries never share a handle. -/
def HandleInv (s : PassFs) : Prop :=
  List.Sorted (· < ·) s.inuse_fhs ∧
  (alKeys s.open_dirs).Nodup ∧
  (alKeys s.open_files).Nodup ∧
  (∀ k ∈ alKeys s.open_dirs, k ∈ s.inuse_fhs) ∧
  (∀ k ∈ alKeys s.open_files, k ∈ s.inuse_fhs) ∧
  ∀ k ∈ alKeys s.open_dirs, k ∉ alKeys s.open_files

/-- A release call is matched when it does not target a handle that is
live in the other registry (repeated releases and releases of unknown
handles are allowed). -/
def safeOp (s : PassFs) : Op → Bool
  | Op.release fh => !(decide (fh ∈ alKeys s.open_dirs))
  | Op.releasedir fh => !(decide (fh ∈ alKeys s.open_files))
  | _ => true

/-- All release calls in the sequence are matched, checked against the
state at which each request runs. -/
def safeOps : PassFs → List Op → Bool
  | _, [] => true
  | s, op :: ops => safeOp s op && safeOps (runOp s op).1 ops

theorem handleInv_insert_dir (s : PassFs) (dres : DirRes) (hI : HandleInv s) :
    HandleInv { s with
      inuse_fhs := (get_fh s.inuse_fhs).2,
      open_dirs := alInsert (get_fh s.inuse_fhs).1 dres s.open_dirs } := by
  obtain ⟨hsort, hnd, hnf, hdu, hfu, hdisj⟩ := hI
  have hfree : getFhValue s.inuse_fhs ∉ s.inuse_fhs := (getFhValue_spec _ hsort).1
  refine ⟨sorted_fhInsert _ _ hsort, nodup_keys_alInsert _ _ _ hnd, hnf, ?_, ?_, ?_⟩
  · intro k hk
    rcases (mem_alKeys_alInsert _ _ _ _).mp hk with rfl | hk'
    · exact mem_fhInsert_self _ _
    · exact mem_fhInsert_of_mem _ _ _ (hdu k hk')
  · intro k hk
    exact mem_fhInsert_of_mem _ _ _ (hfu k hk)
  · intro k hk
    rcases (mem_alKeys_alInsert _ _ _ _).mp hk with rfl | hk'
    · intro hmem
      exact hfree (hfu _ hmem)
    · exact hdisj k hk'

theorem handleInv_insert_file (s : PassFs) (content : List Nat) (hI : HandleInv s) :
    HandleInv { s with
      inuse_fhs := (get_fh s.inuse_fhs).2,
      open_files := alInsert (get_fh s.inuse_fhs).1 content s.open_files } := by
  obtain ⟨hsort, hnd, hnf, hdu, hfu, hdisj⟩ := hI
  have hfree : getFhValue s.inuse_fhs ∉ s.inuse_fhs := (getFhValue_spec _ hsort).1
  refine ⟨sorted_fhInsert _ _ hsort, hnd, nodup_keys_alInsert _ _ _ hnf, ?_, ?_, ?_⟩
  · intro k hk
    exact mem_fhInsert_of_mem _ _ _ (hdu k hk)
  · intro k hk
    rcases (mem_alKeys_alInsert _ _ _ _).mp hk with rfl | hk'
    · exact mem_fhInsert_self _ _
    · exact mem_fhInsert_of_mem _ _ _ (hfu k hk')
  · intro k hk hmem
    rcases (mem_alKeys_alInsert _ _ _ _).mp hmem with rfl | hk'
    · exact hfree (hdu _ hk)
    · exact hdisj k hk hk'

theorem handleInv_releasedir_state (s : PassFs) (fh : Nat) (hI : HandleInv s)
    (hsafe : fh ∉ alKeys s.open_files) :
    HandleInv { s with open_dirs := alRemove fh s.open_dirs,
                       inuse_fhs := s.inuse_fhs.erase fh } := by
  obtain ⟨hsort, hnd, hnf, hdu, hfu, hdisj⟩ := hI
  refine ⟨sorted_erase _ _ hsort, nodup_keys_alRemove _ _ hnd, hnf, ?_, ?_, ?_⟩
  · intro k hk
    obtain ⟨hk', hne⟩ := (mem_alKeys_alRemove _ _ _).mp hk
    exact (List.mem_erase_of_ne hne).mpr (hdu k hk')
  · intro k hk
    have hne : k ≠ fh := fun h => hsafe (h ▸ hk)
    exact (List.mem_erase_of_ne hne).mpr (hfu k hk)
  · intro k hk
    exact hdisj k ((mem_alKeys_alRemove _ _ _).mp hk).1

theorem handleInv_release_state (s : PassFs) (fh : Nat) (hI : HandleInv s)
    (hsafe : fh ∉ alKeys s.open_dirs) :
    HandleInv { s with open_files := alRemove fh s.open_files,
                       inuse_fhs := s.inuse_fhs.erase fh } := by
  obtain ⟨hsort, hnd, hnf, hdu, hfu, hdisj⟩ := hI
  refine ⟨sorted_erase _ _ hsort, hnd, nodup_keys_alRemove _ _ hnf, ?_, ?_, ?_⟩
  · intro k hk
    have hne : k ≠ fh := fun h => hsafe (h ▸ hk)
    exact (List.mem_erase_of_ne hne).mpr (hdu k hk)
  · intro k hk
    obtain ⟨hk', hne⟩ := (mem_alKeys_alRemove _ _ _).mp hk
    exact (List.mem_erase_of_ne hne).mpr (hfu k hk')
  · intro k hk hmem
    exact hdisj k hk ((mem_alKeys_alRemove _ _ _).mp hmem).1

theorem handleInv_readdir_update (s : PassFs) (fh : Nat) (dres : DirRes)
    (entries : List (Except Int DirEntry)) (hI : HandleInv s)
    (hget : alGet fh s.open_dirs = some dres) :
    HandleInv { s with
      open_dirs := alInsert fh ⟨entries, dres.entryStat⟩ s.open_dirs } := by
  obtain ⟨hsort, hnd, hnf, hdu, hfu, hdisj⟩ := hI
  have hmem : fh ∈ alKeys s.open_dirs := alGet_some_mem_keys hget
  refine ⟨hsort, nodup_keys_alInsert _ _ _ hnd, hnf, ?_, hfu, ?_⟩
  · intro k hk
    rcases (mem_alKeys_alInsert _ _ _ _).mp hk with rfl | hk'
    · exact hdu _ hmem
    · exact hdu k hk'
  · intro k hk
    rcases (mem_alKeys_alInsert _ _ _ _).mp hk with rfl | hk'
    · exact hdisj _ hmem
    · exact hdisj k hk'

theorem handleInv_runOp (s : PassFs) (op : Op) (hI : HandleInv s)
    (hsafe : safeOp s op = true) : HandleInv (runOp s op).1 := by
  cases op with
  | getattr ino fs =>
    rw [runOp]
    unfold getattr
    repeat' split
    all_goals exact hI
  | lookup parent name fs =>
    rw [runOp]
    unfold lookup
    split
    · exact hI
    · dsimp only
      split <;> exact hI
  | opendir ino fx =>
    rw [runOp]
    unfold opendir
    repeat' split
    all_goals first
      | exact hI
      | exact handleInv_insert_dir s _ hI
  | readdir fh offset cap =>
    rw [runOp]
    unfold readdir
    split
    · exact hI
    · split
      · exact hI
      · rename_i dres hget
        dsimp only
        split
        · exact handleInv_readdir_update s fh dres _ hI hget
        · exact handleInv_readdir_update s fh dres _ hI hget
  | releasedir fh =>
    have hsafe' : fh ∉ alKeys s.open_files := by
      simpa [safeOp] using hsafe
    exact handleInv_releasedir_state s fh hI hsafe'
  | openf ino flags fx =>
    rw [runOp]
    unfold open_op
    repeat' split
    all_goals first
      | exact hI
      | exact handleInv_insert_file s _ hI
  | read fh offset size => rw [runOp, read_op_state]; exact hI
  | release fh =>
    have hsafe' : fh ∉ alKeys s.open_dirs := by
      simpa [safeOp] using hsafe
    exact handleInv_release_state s fh hI hsafe'
  | create => exact hI
  | setattr => exact hI
  | setxattr => exact hI
  | statfs => exact hI

theorem handleInv_safeOps (ops : List Op) : ∀ s : PassFs, HandleInv s →
    safeOps s ops = true → HandleInv (runOps s ops) := by
  induction ops with
  | nil => intro s hI _; exact hI
  | cons op ops ih =>
    intro s hI h
    have h12 : safeOp s op = true ∧ safeOps (runOp s op).1 ops = true := by
      simpa [safeOps] using h
    exact ih _ (handleInv_runOp s op hI h12.1) h12.2

theorem handleInv_init : HandleInv initState := by
  refine ⟨List.sorted_nil, List.nodup_nil, List.nodup_nil, ?_, ?_, ?_⟩
  all_goals intro k hk; cases hk

/-- C6 (amended): under any request sequence whose release calls are
matched — `release` is never invoked on a handle live in the
open-directory registry, `releasedir` never on one live in the
open-file registry; repeated or unknown releases remain allowed — every
reachable state keeps all live handles distinct: both registries' key
lists are duplicate-free, every registry key is in the shared in-use
set, and the directory and file registries never share a handle.  (The
unrestricted claim is refuted by `c6_counterexample`.) -/
theorem c6_handles_unique (ops : List Op)
    (h : safeOps initState ops = true) :
    HandleInv (runOps initState ops) :=
  handleInv_safeOps ops initState handleInv_init h

/-- Witness for C6: a four-request session — open a directory, release
it, open a file, release it — is matched, and the invariant holds at
its final state. -/
theorem c6_handles_unique_witness :
    HandleInv (runOps initState
      [Op.opendir 1 fxOkEmpty, Op.releasedir 0,
       Op.openf 1 0 (Except.ok []), Op.release 0]) :=
  c6_handles_unique
    [Op.opendir 1 fxOkEmpty, Op.releasedir 0,
     Op.openf 1 0 (Except.ok []), Op.release 0] (by decide)

/-- Counterexample to C6 as stated: with a mismatched release — file
`release(0)` aimed at a live directory handle — the handle is freed
while the directory registry still holds it, and the next file open
reuses handle 0; afterwards handle 0 is simultaneously live in both the
open-directory and the open-file registry. -/
theorem c6_counterexample :
    0 ∈ alKeys (runOps initState
      [Op.opendir 1 fxOkEmpty, Op.release 0,
       Op.openf 1 0 (Except.ok [])]).open_dirs ∧
    0 ∈ alKeys (runOps initState
      [Op.opendir 1 fxOkEmpty, Op.release 0,
       Op.openf 1 0 (Except.ok [])]).open_files := by
  decide

theorem alGet_alInsert_self {α : Type} (k : Nat) (v : α) (l : List (Nat × α)) :
    alGet k (alInsert k v l) = some v := by
  unfold alGet alInsert
  rw [List.find?_cons_of_pos _ (by simp)]
  rfl

theorem alGet_alRemove_self {α : Type} (k : Nat) (l : List (Nat × α)) :
    alGet k (alRemove k l) = none := by
  unfold alGet alRemove
  cases hf : (l.filter fun p => p.1 != k).find? (fun p => p.1 == k) with
  | none => rfl
  | some q =>
    have h1 := List.find?_some hf
    have h2 := List.mem_of_find?_eq_some hf
    have h3 := (List.mem_filter.mp h2).2
    have hq1 : q.1 = k := by simpa using h1
    have hq2 : q.1 ≠ k := by simpa [bne_iff_ne] using h3
    exact (hq2 hq1).elim

theorem alGet_cons_ne {α : Type} (k' : Nat) (q : Nat × α) (t : List (Nat × α))
    (h : q.1 ≠ k') : alGet k' (q :: t) = alGet k' t := by
  unfold alGet
  rw [List.find?_cons_of_neg _ (by simpa using h)]

theorem alGet_alRemove_ne {α : Type} (k k' : Nat) (l : List (Nat × α))
    (h : k' ≠ k) : alGet k' (alRemove k l) = alGet k' l := by
  induction l with
  | nil => rfl
  | cons q t ih =>
    by_cases hq : q.1 = k
    · have hfilter : (q.1 != k) = false := by simp [hq]
      have : alRemove k (q :: t) = alRemove k t := by
        unfold alRemove
        rw [List.filter_cons_of_neg (by simp [hfilter])]
      rw [this, ih, alGet_cons_ne k' q t (by omega)]
    · have hfilter : (q.1 != k) = true := by simpa [bne_iff_ne] using hq
      have hrem : alRemove k (q :: t) = q :: alRemove k t := by
        unfold alRemove
        simp [List.filter_cons, hfilter]
      rw [hrem]
      by_cases hq2 : q.1 = k'
      · unfold alGet
        rw [List.find?_cons_of_pos _ (by simpa using hq2),
            List.find?_cons_of_pos _ (by simpa using hq2)]
      · rw [alGet_cons_ne k' q _ hq2, alGet_cons_ne k' q t hq2, ih]

theorem alGet_alInsert_ne {α : Type} (k k' : Nat) (v : α) (l : List (Nat × α))
    (h : k' ≠ k) : alGet k' (alInsert k v l) = alGet k' l := by
  unfold alInsert
  rw [alGet_cons_ne k' (k, v) _ (by omega), alGet_alRemove_ne k k' l h]

/-! ## C7: read-only enforcement -/

/-- C7: in every state and for all arguments (the source handlers ignore
every argument), `create`, `setattr` and `setxattr` reply with the
read-only-filesystem error EROFS and leave the state untouched, and
`statfs` always replies with the permission error EPERM, also leaving
the state untouched. -/
theorem c7_readonly_enforcement (s : PassFs) :
    runOp s Op.create = (s, Reply.error EROFS) ∧
    runOp s Op.setattr = (s, Reply.error EROFS) ∧
    runOp s Op.setxattr = (s, Reply.error EROFS) ∧
    runOp s Op.statfs = (s, Reply.error EPERM) :=
  ⟨rfl, rfl, rfl, rfl⟩

/-! ## C1: lookup on a regular file -/

/-- Stat record of a 100-byte regular file whose real inode number is 42. -/
def fooStat : FileStat :=
  { st_ino := 42
    st_mode := 0o100644
    st_size := 100 }

/-- Stat oracle for a source root containing exactly `foo.txt`. -/
def fooFs : PathT → Except Int FileStat :=
  fun p => if p = ["foo.txt"] then Except.ok fooStat else Except.error ENOENT

/-- C1: `lookup(1, "foo.txt")` on a 100-byte regular file with real
inode 42 succeeds, replies kind regular-file, and records inode 42 in
the registry — but the replied `size` field is 42 (the inode number),
not the file's 100-byte size, because `stat_to_fileattr` fills `size`
from `st_ino` (src/src/lib.rs line 380) while `st_size` goes unused. -/
theorem c1_lookup_size_is_inode_number :
    (lookup initState 1 "foo.txt" fooFs).2 =
      Reply.entry (stat_to_fileattr fooStat) ∧
    (stat_to_fileattr fooStat).kind = FileType.RegularFile ∧
    alGet 42 (lookup initState 1 "foo.txt" fooFs).1.inode_map =
      some ["foo.txt"] ∧
    fooStat.st_size = 100 ∧
    (stat_to_fileattr fooStat).size = 42 := by
  decide

/-! ## C9: the parent-inode-1 special case in lookup -/

/-- C9: `lookup` with parent inode 1 composes the path `[name]` against
the empty root path without consulting the inode registry: for every
state — including any state in which inode 1 has been pruned — a stat
success at `[name]` yields the translated entry and records the real
inode; `lookup` with any other parent inode that is absent from the
registry replies ENOENT and leaves the state unchanged. -/
theorem c9_lookup_root_specialcase (s : PassFs) (name : String)
    (fs : PathT → Except Int FileStat) (st : FileStat) (p : Nat)
    (hst : fs [name] = Except.ok st) (hp : p ≠ 1)
    (hm : alGet p s.inode_map = none) :
    (lookup s 1 name fs).2 = Reply.entry (stat_to_fileattr st) ∧
    alGet st.st_ino (lookup s 1 name fs).1.inode_map = some [name] ∧
    (lookup s p name fs).2 = Reply.error ENOENT ∧
    (lookup s p name fs).1 = s := by
  have hone : (lookup s 1 name fs) =
      ({ s with inode_map := alInsert (stat_to_fileattr st).ino [name] s.inode_map },
       Reply.entry (stat_to_fileattr st)) := by
    unfold lookup
    rw [if_pos rfl]
    dsimp only
    rw [List.nil_append, hst]
  have hother : (lookup s p name fs) = (s, Reply.error ENOENT) := by
    unfold lookup
    rw [if_neg hp, hm]
  refine ⟨by rw [hone], ?_, by rw [hother], by rw [hother]⟩
  rw [hone]
  exact alGet_alInsert_self _ _ _

/-- Witness for C9, exercised on a state in which inode 1 has been
pruned by a failing `getattr`: the root lookup still succeeds and
records inode 42, while a lookup under unknown parent inode 7 is
ENOENT. -/
theorem c9_lookup_root_specialcase_witness :
    (lookup (runOps initState [Op.getattr 1 (fun _ => Except.error EIO)])
        1 "foo.txt" fooFs).2 = Reply.entry (stat_to_fileattr fooStat) ∧
    alGet fooStat.st_ino
      (lookup (runOps initState [Op.getattr 1 (fun _ => Except.error EIO)])
        1 "foo.txt" fooFs).1.inode_map = some ["foo.txt"] ∧
    (lookup (runOps initState [Op.getattr 1 (fun _ => Except.error EIO)])
        7 "foo.txt" fooFs).2 = Reply.error ENOENT ∧
    (lookup (runOps initState [Op.getattr 1 (fun _ => Except.error EIO)])
        7 "foo.txt" fooFs).1 =
      runOps initState [Op.getattr 1 (fun _ => Except.error EIO)] :=
  c9_lookup_root_specialcase
    (runOps initState [Op.getattr 1 (fun _ => Except.error EIO)])
    "foo.txt" fooFs fooStat 7 rfl (by decide) (by decide)

/-! ## C4: getattr pruning behavior -/

/-- Counterexample to C4 as stated: a stat failure with EACCES — not a
"not found" condition — still removes the inode from the registry,
where the claim requires the mapping to be left unchanged. -/
theorem c4_counterexample :
    EACCES ≠ ENOENT ∧
    (getattr initState 1 (fun _ => Except.error EACCES)).2 =
      Reply.error EACCES ∧
    alGet 1 (getattr initState 1
      (fun _ => Except.error EACCES)).1.inode_map = none := by
  decide

/-- C4 (amended): when `getattr(inode)` fails at the stat step, the
mapped OS error is reported and the inode is forgotten from the
registry on every failure, not only on "not found" (the source's `Err`
arm removes unconditionally, src/src/lib.rs lines 84-88). -/
theorem c4_getattr_prunes_on_any_error (s : PassFs) (ino : Nat)
    (fs : PathT → Except Int FileStat) (path : PathT) (e : Int)
    (hmap : alGet ino s.inode_map = some path)
    (herr : fs path = Except.error e) :
    (getattr s ino fs).2 = Reply.error e ∧
    alGet ino (getattr s ino fs).1.inode_map = none := by
  unfold getattr
  rw [hmap]
  dsimp only
  rw [herr]
  exact ⟨rfl, alGet_alRemove_self _ _⟩

/-- Witness for C4: a concrete EACCES stat failure on inode 1 reports
EACCES and prunes the inode. -/
theorem c4_getattr_prunes_on_any_error_witness :
    (getattr initState 1 (fun _ => Except.error EACCES)).2 =
      Reply.error EACCES ∧
    alGet 1 (getattr initState 1
      (fun _ => Except.error EACCES)).1.inode_map = none :=
  c4_getattr_prunes_on_any_error initState 1 (fun _ => Except.error EACCES)
    ["."] EACCES (by decide) rfl

/-! ## C3: the root inode mapping -/

/-- Inode 1 is mapped to the path `"."` (how `PassFs::new` registers the
source root). -/
def RootOk (s : PassFs) : Prop := alGet 1 s.inode_map = some ["."]

/-- Requests that do not disturb the root mapping: a `getattr(1)` whose
stat succeeds, a `lookup` whose stat never reports real inode 1, an
`opendir(1)`/`open(1)` that does not fail with ENOENT at the open step,
and every other request unconditionally. -/
def RootGuard : Op → Prop
  | Op.getattr ino fs => ino = 1 → ∃ st, fs ["."] = Except.ok st
  | Op.lookup _ _ fs => ∀ q st, fs q = Except.ok st → st.st_ino ≠ 1
  | Op.opendir ino fx => ino = 1 → fx.listDir ≠ Except.error ENOENT
  | Op.openf ino _ fx => ino = 1 → fx ≠ Except.error ENOENT
  | _ => True

theorem rootOk_runOp (s : PassFs) (op : Op) (hR : RootOk s)
    (hG : RootGuard op) : RootOk (runOp s op).1 := by
  cases op with
  | getattr ino fs =>
    rw [runOp]
    unfold getattr
    split
    · exact hR
    · rename_i path heq
      split
      · exact hR
      · rename_i e herr
        show alGet 1 (alRemove ino s.inode_map) = some ["."]
        by_cases hino : ino = 1
        · subst hino
          obtain ⟨st, hst⟩ := hG rfl
          rw [hR] at heq
          cases heq
          rw [hst] at herr
          cases herr
        · rw [alGet_alRemove_ne ino 1 _ (by omega)]
          exact hR
  | lookup parent name fs =>
    rw [runOp]
    unfold lookup
    split
    · exact hR
    · rename_i ppath heq
      dsimp only
      split
      · rename_i st hst
        show alGet 1 (alInsert (stat_to_fileattr st).ino (ppath ++ [name]) s.inode_map) =
          some ["."]
        have hino : (stat_to_fileattr st).ino = st.st_ino := rfl
        have hne : st.st_ino ≠ 1 := hG (ppath ++ [name]) st hst
        rw [hino, alGet_alInsert_ne st.st_ino 1 _ _ (by omega)]
        exact hR
      · exact hR
  | opendir ino fx =>
    rw [runOp]
    unfold opendir
    split
    · exact hR
    · split
      · exact hR
      · cases hlist : fx.listDir with
        | ok entries => exact hR
        | error e =>
          dsimp only
          by_cases he : e = ENOENT
          · rw [if_pos he]
            show alGet 1 (alRemove ino s.inode_map) = some ["."]
            by_cases hino : ino = 1
            · subst hino
              exact absurd (he ▸ hlist) (hG rfl)
            · rw [alGet_alRemove_ne ino 1 _ (by omega)]
              exact hR
          · rw [if_neg he]
            exact hR
  | readdir fh offset cap =>
    rw [runOp]
    unfold readdir
    split
    · exact hR
    · split
      · exact hR
      · dsimp only
        split <;> exact hR
  | releasedir fh => exact hR
  | openf ino flags fx =>
    rw [runOp]
    unfold open_op
    split
    · exact hR
    · split
      · exact hR
      · cases hfx : fx with
        | ok content => exact hR
        | error e =>
          dsimp only
          by_cases he : e = ENOENT
          · rw [if_pos he]
            show alGet 1 (alRemove ino s.inode_map) = some ["."]
            by_cases hino : ino = 1
            · subst hino
              exact absurd (he ▸ hfx) (hG rfl)
            · rw [alGet_alRemove_ne ino 1 _ (by omega)]
              exact hR
          · rw [if_neg he]
            exact hR
  | read fh offset size => rw [runOp, read_op_state]; exact hR
  | release fh => exact hR
  | create => exact hR
  | setattr => exact hR
  | setxattr => exact hR
  | statfs => exact hR

theorem rootOk_runOps (ops : List Op) : ∀ s : PassFs, RootOk s →
    (∀ op ∈ ops, RootGuard op) → RootOk (runOps s ops) := by
  induction ops with
  | nil => intro s hR _; exact hR
  | cons op ops ih =>
    intro s hR hG
    exact ih _ (rootOk_runOp s op hR (hG op (List.mem_cons_self op ops)))
      (fun o ho => hG o (List.mem_cons_of_mem op ho))

/-- Counterexample to C3 as stated: initially inode 1 maps to the path
`"."`, not to the empty path, and after a reachable operation — a
`getattr(1)` whose stat fails with EIO — inode 1 is no longer present
in the registry at all. -/
theorem c3_counterexample :
    alGet 1 initState.inode_map = some ["."] ∧
    some (["."] : PathT) ≠ some ([] : PathT) ∧
    alGet 1 (runOps initState
      [Op.getattr 1 (fun _ => Except.error EIO)]).inode_map = none := by
  decide

/-- C3 (amended): inode 1 initially maps to the root path `"."` (not
the empty path), and the mapping persists under every request sequence
whose operations respect `RootGuard` (no stat failure on a `getattr(1)`,
no lookup observing real inode 1, no ENOENT on the open step of an
`opendir(1)`/`open(1)`); while the mapping is intact, `getattr(1)`
resolves it (replying the root's translated attributes) and
`opendir(1)` resolves it (replying a fresh handle).  Unconditional
presence fails: see the counterexample. -/
theorem c3_root_inode (ops : List Op) (fs : PathT → Except Int FileStat)
    (st : FileStat) (fx : OpendirFx) (es : List (Except Int DirEntry))
    (hops : ∀ op ∈ ops, RootGuard op)
    (hst : fs ["."] = Except.ok st)
    (hsub : fx.subDir = Except.ok ())
    (hlist : fx.listDir = Except.ok es) :
    RootOk (runOps initState ops) ∧
    (getattr (runOps initState ops) 1 fs).2 =
      Reply.attr (stat_to_fileattr st) ∧
    (opendir (runOps initState ops) 1 fx).2 =
      Reply.opened (getFhValue (runOps initState ops).inuse_fhs) := by
  have hR : RootOk (runOps initState ops) :=
    rootOk_runOps ops initState rfl hops
  refine ⟨hR, ?_, ?_⟩
  · unfold getattr
    rw [hR]
    dsimp only
    rw [hst]
  · unfold opendir
    rw [hR]
    dsimp only
    rw [hsub]
    dsimp only
    rw [hlist]
    rfl

/-- Stat record of the source root directory. -/
def rootStat : FileStat :=
  { st_ino := 2
    st_mode := 0o040755 }

/-- Stat oracle that resolves only the root path `"."`. -/
def rootFs : PathT → Except Int FileStat :=
  fun p => if p = ["."] then Except.ok rootStat else Except.error ENOENT

/-- Witness for C3: after a harmless request (`statfs`), the root
mapping is intact, `getattr(1)` replies the root's attributes and
`opendir(1)` replies handle `getFhValue` of the in-use set. -/
theorem c3_root_inode_witness :
    RootOk (runOps initState [Op.statfs]) ∧
    (getattr (runOps initState [Op.statfs]) 1 rootFs).2 =
      Reply.attr (stat_to_fileattr rootStat) ∧
    (opendir (runOps initState [Op.statfs]) 1 fxOkEmpty).2 =
      Reply.opened (getFhValue (runOps initState [Op.statfs]).inuse_fhs) :=
  c3_root_inode [Op.statfs] rootFs rootStat fxOkEmpty []
    (by
      intro op hop
      rcases List.mem_singleton.mp hop with rfl
      trivial)
    rfl rfl rfl

/-! ## C2: readdir entry translation -/

theorem readdirLoop_entries (estat : String → Except Int FileStat) (cap : Nat) :
    ∀ (entries : List (Except Int DirEntry))
      (buf out : List (Nat × FileType × String))
      (rest : List (Except Int DirEntry)),
      readdirLoop estat cap entries buf = (rest, Except.ok out) →
      ∀ x ∈ out, x ∈ buf ∨
        ∃ e : DirEntry, Except.ok e ∈ entries ∧ e.name = x.2.2 ∧
          x.2.1 = simple_kind e.simple_type ∧
          ∃ st, estat e.name = Except.ok st ∧ st.st_ino = x.1 := by
  intro entries
  induction entries with
  | nil =>
    intro buf out rest h x hx
    rw [readdirLoop] at h
    injection h with h1 h2
    injection h2 with h3
    exact Or.inl (h3 ▸ hx)
  | cons item rest' ih =>
    intro buf out rest h x hx
    cases item with
    | error e =>
      rw [readdirLoop] at h
      injection h with h1 h2
      exact (Except.noConfusion h2)
    | ok ent =>
      rw [readdirLoop] at h
      cases hstat : estat ent.name with
      | error e =>
        rw [hstat] at h
        injection h with h1 h2
        exact (Except.noConfusion h2)
      | ok st =>
        rw [hstat] at h
        dsimp only at h
        by_cases hlen : buf.length < cap
        · rw [if_pos hlen] at h
          rcases ih _ out rest h x hx with hmem | hgood
          · rcases List.mem_append.mp hmem with hb | hnew
            · exact Or.inl hb
            · refine Or.inr ⟨ent, List.mem_cons_self _ _, ?_, ?_, st, hstat, ?_⟩
              · rw [List.mem_singleton.mp hnew]
              · rw [List.mem_singleton.mp hnew]
              · rw [List.mem_singleton.mp hnew]
          · obtain ⟨e, he, hrest⟩ := hgood
            exact Or.inr ⟨e, List.mem_cons_of_mem _ he, hrest⟩
        · rw [if_neg hlen] at h
          injection h with h1 h2
          injection h2 with h3
          exact Or.inl (h3 ▸ hx)

/-- C2 (amended): every entry a successful `readdir` buffers carries
the real inode number obtained by re-statting the entry through the
directory-scoped stat oracle (not the parent's inode), but its kind is
translated from the directory stream's own `simple_type` field
(symlink, directory and regular file one-to-one; `Other` and an absent
type both become character device), not via the §4.5 stat-based mapping
— the re-stat's mode is ignored for the kind.  The unamended per-§4.5
claim is refuted by `c2_counterexample`. -/
theorem c2_readdir_entries (s : PassFs) (fh : Nat) (offset : Int)
    (cap : Nat) (out : List (Nat × FileType × String))
    (h : (readdir s fh offset cap).2 = Reply.dirEntries out) :
    ∃ dres, alGet fh s.open_dirs = some dres ∧
      ∀ x ∈ out,
        ∃ e : DirEntry, Except.ok e ∈ dres.entries ∧ e.name = x.2.2 ∧
          x.2.1 = simple_kind e.simple_type ∧
          ∃ st, dres.entryStat e.name = Except.ok st ∧ st.st_ino = x.1 := by
  unfold readdir at h
  by_cases hoff : offset < 0
  · rw [if_pos hoff] at h
    exact (Reply.noConfusion h)
  · rw [if_neg hoff] at h
    cases hget : alGet fh s.open_dirs with
    | none =>
      rw [hget] at h
      exact (Reply.noConfusion h)
    | some dres =>
      rw [hget] at h
      dsimp only at h
      refine ⟨dres, rfl, ?_⟩
      rcases hrl : readdirLoop dres.entryStat cap dres.entries [] with ⟨rest, res⟩
      rw [hrl] at h
      cases res with
      | ok buf =>
        dsimp only at h
        injection h with hbuf
        intro x hx
        rcases readdirLoop_entries dres.entryStat cap dres.entries [] out rest
          (hbuf ▸ hrl) x hx with hnil | hgood
        · exact absurd hnil (List.not_mem_nil x)
        · exact hgood
      | error e =>
        dsimp only at h
        exact (Reply.noConfusion h)

/-- Stat record of a unix socket with real inode number 7. -/
def sockStat : FileStat :=
  { st_ino := 7
    st_mode := 0o140755 }

/-- State holding one open directory (handle 0) whose stream yields a
single entry `s`, a socket, whose dirent type is `Other`. -/
def sockDirState : PassFs :=
  { open_dirs :=
      [(0, { entries := [Except.ok { name := "s", simple_type := some SimpleType.Other }]
             entryStat := fun n => if n = "s" then Except.ok sockStat else Except.error ENOENT })]
    open_files := []
    inuse_fhs := [0]
    inode_map := [(1, ["."])] }

/-- Counterexample to C2 as stated: a socket entry (re-stat mode
`S_IFSOCK`, §4.5 kind Socket) is reported by `readdir` with kind
CharDevice, because the handler maps the dirent's `SimpleType::Other`
to CharDevice instead of using the stat-based §4.5 translation. -/
theorem c2_counterexample :
    (readdir sockDirState 0 0 10).2 =
      Reply.dirEntries [(7, FileType.CharDevice, "s")] ∧
    (stat_to_fileattr sockStat).kind = FileType.Socket ∧
    FileType.CharDevice ≠ FileType.Socket := by
  decide

/-- Stat record of a 5-byte regular file with real inode number 9. -/
def regStat : FileStat :=
  { st_ino := 9
    st_mode := 0o100644
    st_size := 5 }

/-- State holding one open directory (handle 0) whose stream yields a
single regular-file entry `f`. -/
def regDirState : PassFs :=
  { open_dirs :=
      [(0, { entries := [Except.ok { name := "f", simple_type := some SimpleType.File }]
             entryStat := fun n => if n = "f" then Except.ok regStat else Except.error ENOENT })]
    open_files := []
    inuse_fhs := [0]
    inode_map := [(1, ["."])] }

/-- Witness for C2: the single buffered entry of a concrete `readdir`
carries its own re-statted inode 9 (not the parent's) and the kind
derived from its dirent type. -/
theorem c2_readdir_entries_witness :
    ∃ dres, alGet 0 regDirState.open_dirs = some dres ∧
      ∀ x ∈ [((9 : Nat), FileType.RegularFile, "f")],
        ∃ e : DirEntry, Except.ok e ∈ dres.entries ∧ e.name = x.2.2 ∧
          x.2.1 = simple_kind e.simple_type ∧
          ∃ st, dres.entryStat e.name = Except.ok st ∧ st.st_ino = x.1 :=
  c2_readdir_entries regDirState 0 0 10 [(9, FileType.RegularFile, "f")]
    (by decide)

/-! ## C8: read returns exactly the addressed bytes -/

theorem take_chunk_exact (l : List Nat) (k : Nat) :
    l.take k ++ (l.drop (l.take k).length).take (k - (l.take k).length) =
      l.take k := by
  by_cases hk : k ≤ l.length
  · have hlen : (l.take k).length = k := by
      rw [List.length_take]
      omega
    rw [hlen]
    simp
  · have h1 : l.take k = l := List.take_of_length_le (by omega)
    rw [h1, List.drop_length]
    simp

theorem readLoopAux_spec (content : List Nat) (size off : Nat) :
    ∀ (fuel pos : Nat) (acc : List Nat), size - pos < fuel →
      readLoopAux content size off fuel pos acc =
        acc ++ (content.drop (off + pos)).take (size - pos) := by
  intro fuel
  induction fuel with
  | zero => intro pos acc h; exact absurd h (Nat.not_lt_zero _)
  | succ fuel ih =>
    intro pos acc h
    rw [readLoopAux]
    by_cases hpos : pos < size
    · rw [if_pos hpos]
      by_cases hchunk : (osRead content (off + pos) (size - pos)).length = 0
      · rw [if_pos hchunk]
        have hempty : (content.drop (off + pos)).take (size - pos) = [] :=
          List.length_eq_zero.mp hchunk
        rw [hempty]
        simp
      · rw [if_neg hchunk]
        have hlen : 0 < (osRead content (off + pos) (size - pos)).length :=
          Nat.pos_of_ne_zero hchunk
        rw [ih (pos + (osRead content (off + pos) (size - pos)).length) _ (by omega)]
        rw [List.append_assoc]
        congr 1
        show osRead content (off + pos) (size - pos) ++
            (content.drop (off + (pos + (osRead content (off + pos) (size - pos)).length))).take
              (size - (pos + (osRead content (off + pos) (size - pos)).length)) =
          (content.drop (off + pos)).take (size - pos)
        have hdrop : content.drop (off + (pos + (osRead content (off + pos) (size - pos)).length)) =
            (content.drop (off + pos)).drop ((content.drop (off + pos)).take (size - pos)).length := by
          rw [List.drop_drop]
          congr 1
          show off + (pos + (osRead content (off + pos) (size - pos)).length) =
            off + pos + (osRead content (off + pos) (size - pos)).length
          omega
        have hsub : size - (pos + (osRead content (off + pos) (size - pos)).length) =
            size - pos - ((content.drop (off + pos)).take (size - pos)).length := by
          show size - (pos + ((content.drop (off + pos)).take (size - pos)).length) = _
          omega
        rw [hdrop, hsub]
        exact take_chunk_exact (content.drop (off + pos)) (size - pos)
    · rw [if_neg hpos]
      have hzero : size - pos = 0 := by omega
      rw [hzero]
      simp

/-- C8: for an open file handle and a non-negative offset, the `read`
reply contains exactly the bytes of the file from `offset`, at most
`size` of them, with no padding — in particular an offset at or beyond
end-of-file yields zero bytes rather than an error. -/
theorem c8_read_exact (s : PassFs) (fh : Nat) (offset : Int) (size : Nat)
    (content : List Nat)
    (hfh : alGet fh s.open_files = some content) (hoff : 0 ≤ offset) :
    (read_op s fh offset size).2 =
      Reply.data ((content.drop offset.toNat).take size) ∧
    (content.length ≤ offset.toNat →
      (read_op s fh offset size).2 = Reply.data []) := by
  have hnn : ¬offset < 0 := by omega
  have hmain : (read_op s fh offset size).2 =
      Reply.data ((content.drop offset.toNat).take size) := by
    unfold read_op
    rw [if_neg hnn, hfh]
    dsimp only
    congr 1
    have h := readLoopAux_spec content size offset.toNat (size + 1) 0 [] (by omega)
    simpa using h
  refine ⟨hmain, fun hle => ?_⟩
  rw [hmain, List.drop_eq_nil_of_le hle]
  simp

/-- State holding one open file (handle 0) with bytes `[10, 20, 30]`. -/
def fileState : PassFs :=
  { open_dirs := []
    open_files := [(0, [10, 20, 30])]
    inuse_fhs := [0]
    inode_map := [(1, ["."])] }

/-- Witness for C8: reading 4 bytes at offset 5 of a 3-byte open file
replies zero bytes, not an error. -/
theorem c8_read_exact_witness :
    (read_op fileState 0 5 4).2 =
      Reply.data (((([10, 20, 30] : List Nat).drop (5 : Int).toNat).take 4)) ∧
    (([10, 20, 30] : List Nat).length ≤ (5 : Int).toNat →
      (read_op fileState 0 5 4).2 = Reply.data []) :=
  c8_read_exact fileState 0 5 4 [10, 20, 30] (by decide) (by decide)

/-! ## C10: open flag handling -/

/-- C10: `open` replies the read-only error exactly when the flags
contain at least one of the O_APPEND, O_CREAT, O_TRUNC bits (the
hypothesis records that the underlying `openat` read-only open never
itself fails with EROFS); when rejecting, the state is untouched; and
once the mask test passes the handler's behavior is entirely
independent of the remaining flags — write-only (1) and read-write (2)
access modes are not rejected, and the file is opened for reading
regardless of them, since the flags never reach the real open. -/
theorem c10_open_readonly_mask (s : PassFs) (ino : Nat)
    (flags flags' : Nat) (fx : Except Int (List Nat))
    (hfx : ∀ e : Int, fx = Except.error e → e ≠ EROFS) :
    ((open_op s ino flags fx).2 = Reply.error EROFS ↔
      flags &&& open_mask ≠ 0) ∧
    (flags &&& open_mask ≠ 0 → (open_op s ino flags fx).1 = s) ∧
    (flags &&& open_mask = 0 → flags' &&& open_mask = 0 →
      open_op s ino flags fx = open_op s ino flags' fx) := by
  by_cases hm : flags &&& open_mask = 0
  · have hne : ¬(flags &&& open_mask ≠ 0) := fun hc => hc hm
    have hne2 : (open_op s ino flags fx).2 ≠ Reply.error EROFS := by
      unfold open_op
      rw [if_neg hne]
      cases hget : alGet ino s.inode_map with
      | none =>
        intro h
        injection h with he
        exact absurd he (by decide)
      | some path =>
        dsimp only
        cases fx with
        | ok content =>
          intro h
          exact Reply.noConfusion h
        | error e =>
          have he' : e ≠ EROFS := hfx e rfl
          dsimp only
          by_cases he : e = ENOENT
          · rw [if_pos he]
            intro h
            injection h with h2
            exact he' h2
          · rw [if_neg he]
            intro h
            injection h with h2
            exact he' h2
    refine ⟨⟨fun habs => absurd habs hne2, fun hcon => absurd hm hcon⟩,
      fun hcon => absurd hm hcon, fun _ h2 => ?_⟩
    unfold open_op
    rw [if_neg hne, if_neg (fun hc => hc h2)]
  · have hm' : flags &&& open_mask ≠ 0 := hm
    refine ⟨⟨fun _ => hm', fun _ => ?_⟩, fun _ => ?_, fun h1 _ => absurd h1 hm'⟩
    · unfold open_op
      rw [if_pos hm']
    · unfold open_op
      rw [if_pos hm']

/-- Witness for C10 at write-only flags (1): the mask test passes, the
reply is not EROFS, rejection would leave the state unchanged
(vacuously here), and the behavior equals that at read-write flags
(2). -/
theorem c10_open_readonly_mask_witness :
    ((open_op initState 1 1 (Except.ok [])).2 = Reply.error EROFS ↔
      (1 : Nat) &&& open_mask ≠ 0) ∧
    ((1 : Nat) &&& open_mask ≠ 0 →
      (open_op initState 1 1 (Except.ok [])).1 = initState) ∧
    ((1 : Nat) &&& open_mask = 0 → (2 : Nat) &&& open_mask = 0 →
      open_op initState 1 1 (Except.ok []) =
        open_op initState 1 2 (Except.ok [])) :=
  c10_open_readonly_mask initState 1 1 2 (Except.ok [])
    (fun _e h => Except.noConfusion h)

end Passfs
